import Mathlib

set_option maxHeartbeats 1000000
set_option maxRecDepth 4000

/-!
Verification development for two subsystems of this repository:

1. the cached spline evaluator `TsEvaluator` (Ts/evaluator.h, together with
   the value-type declarations of Ts/types.h), and
2. the scene-description path grammar of Sdf/pathParser.h, a PEGTL grammar
   over UTF-8 byte input.

Code that is present in the source tree (the evaluator constructor and its
Eval method, the TsInterpMode / TsSide enumerations, TsTraits, and every
grammar production of pathParser.h) is embedded faithfully.  Collaborators
that the source tree only declares (TsSpline, TsKnotMap, Ts_EvalCache, the
Tf Unicode classification tables, the PEGTL combinator library and the
Sdf_ParsePath driver of pathParser.cpp) are modelled from the spec; each
such definition carries a doc comment saying so.
-/

/-! ## Part 1: the Ts spline evaluator -/

/-- Interpolation mode for a spline segment, from Ts/types.h
(TsInterpValueBlock, TsInterpHeld, TsInterpLinear, TsInterpCurve). -/
inductive TsInterpMode where
  | valueBlock
  | held
  | linear
  | curve
deriving DecidableEq

/-- Evaluation side, from Ts/types.h (enum TsSide: TsSideLeft, TsSideRight). -/
inductive TsSide where
  | left
  | right
deriving DecidableEq

/-- Modelled from the spec: a knot of a TsSpline (TsKnot lives in Ts/knot.h,
which is not under src).  A knot carries a time, a value, tangent slopes and
the interpolation mode of the segment following it.  Values and times are
modelled as rationals (the claims under test are structural, not about
floating-point rounding). -/
structure TsKnot where
  time : Rat
  value : Rat
  preTanSlope : Rat
  postTanSlope : Rat
  nextInterp : TsInterpMode
deriving DecidableEq

/-- Modelled from the spec: a TsSpline (Ts/spline.h is not under src) is an
ordered, time-keyed knot collection.  The knot list is kept plain; theorems
that need the TsKnotMap ordering invariant take strict sortedness of the
times as a hypothesis. -/
structure TsSpline where
  knots : List TsKnot
deriving DecidableEq

/-- Modelled from the spec: TsSpline::IsEmpty, true when the spline has no
knots. -/
def TsSpline.IsEmpty (s : TsSpline) : Bool := s.knots.isEmpty

/-- Modelled from the spec: the per-segment curve evaluation shared by the
segment cache and by direct spline evaluation (the real math lives in
Ts/evalCache.h and the spline implementation, not under src).  Held segments
hold the left value, linear segments interpolate linearly, curve segments use
a cubic Hermite over the pair values and tangent slopes.  A value-blocked
segment is modelled as holding the left value.  The claims under test compare
the cached path with the direct path, and both paths share this function. -/
def segEval (a b : TsKnot) (t : Rat) : Rat :=
  match a.nextInterp with
  | TsInterpMode.valueBlock => a.value
  | TsInterpMode.held => a.value
  | TsInterpMode.linear =>
      a.value + (b.value - a.value) * ((t - a.time) / (b.time - a.time))
  | TsInterpMode.curve =>
      let d := b.time - a.time
      let u := (t - a.time) / d
      a.value * (2*(u*u*u) - 3*(u*u) + 1)
        + a.postTanSlope * d * (u*u*u - 2*(u*u) + u)
        + b.value * (3*(u*u) - 2*(u*u*u))
        + b.preTanSlope * d * (u*u*u - u*u)

/-- Modelled from the spec: a segment cache entry (Ts_EvalCache in
Ts/evalCache.h, not under src) owns data derived from exactly two adjacent
knots; it is immutable after construction. -/
structure SegCache where
  k0 : TsKnot
  k1 : TsKnot
deriving DecidableEq

/-- Modelled from the spec: Ts_EvalCache<T>::TypedEval evaluates the cached
segment at a time, with the same mathematical result as direct evaluation of
that segment. -/
def SegCache.TypedEval (c : SegCache) (t : Rat) : Rat := segEval c.k0 c.k1 t

/-- Modelled from the spec: Ts_EvalCache<T>::New builds the cache entry for
one adjacent knot pair.  Construction always succeeds for the modelled value
type; theorems about the constructor are stated for an arbitrary fallible
builder so that the per-segment failure path of the source is also covered. -/
def Ts_EvalCache.New (a b : TsKnot) : Option SegCache := some ⟨a, b⟩

/-- Modelled from the spec: direct evaluation of the knot run, walking the
adjacent pairs and evaluating the segment that contains the query time; at or
past the last knot the last value holds. -/
def evalKnots : List TsKnot → Rat → Rat
  | [], _ => 0
  | [k], _ => k.value
  | k0 :: k1 :: rest, t =>
      if t < k1.time then segEval k0 k1 t else evalKnots (k1 :: rest) t

/-- Modelled from the spec: TsSpline::Eval, the direct-evaluation entry point
(`Eval(time) -> (value, success)`); it fails only on an empty spline, and
holds the edge values outside the knot range (held extrapolation, the
default of TsExtrapolation in types.h). -/
def TsSpline.Eval (s : TsSpline) (t : Rat) : Option Rat :=
  match s.knots with
  | [] => none
  | k :: ks => if t ≤ k.time then some k.value else some (evalKnots (k :: ks) t)

/-- Adjacent pairs of a list, one per gap between consecutive elements. -/
def adjPairs : List TsKnot → List (TsKnot × TsKnot)
  | a :: b :: rest => (a, b) :: adjPairs (b :: rest)
  | _ => []

/-- Embeds the construction loop of TsEvaluator (evaluator.h lines 75 to 93):
one Ts_EvalCache per adjacent knot pair, pushed only when construction
succeeds (TF_VERIFY(segmentCache)), so a failed segment is skipped. -/
def buildSegments (nc : TsKnot → TsKnot → Option SegCache) :
    List TsKnot → List (Option SegCache)
  | a :: b :: rest =>
      (match nc a b with
       | some c => [some c]
       | none => []) ++ buildSegments nc (b :: rest)
  | _ => []

/-- The evaluator state (evaluator.h lines 42 to 48): the vector of cached
segments and the spline being evaluated.  An entry is an Option to model the
shared-pointer null check that Eval performs. -/
structure TsEvaluator where
  segments : List (Option SegCache)
  spline : TsSpline
deriving DecidableEq

/-- The default constructor (evaluator.h line 51): empty segments over an
empty spline. -/
def TsEvaluator.empty : TsEvaluator := ⟨[], ⟨[]⟩⟩

/-- Embeds TsEvaluator::TsEvaluator(TsSpline) (evaluator.h lines 53 to 95):
with more than one knot, scan for at least one knot whose outgoing segment
uses curve interpolation; if found, build one cache entry per adjacent knot
pair, otherwise build nothing.  The cache builder is a parameter so that the
per-segment failure path can be reasoned about. -/
def TsEvaluator.ofSpline (nc : TsKnot → TsKnot → Option SegCache)
    (s : TsSpline) : TsEvaluator :=
  if 1 < s.knots.length then
    if s.knots.any (fun k => decide (k.nextInterp = TsInterpMode.curve)) then
      ⟨buildSegments nc s.knots, s⟩
    else ⟨[], s⟩
  else ⟨[], s⟩

/-- Embeds knots.lower_bound(time) (evaluator.h line 110): the index of the
first knot whose time is not less than the query time, none when every knot
time is below the query (the end iterator). -/
def lowerBoundIdx (t : Rat) : List TsKnot → Option Nat
  | [] => none
  | k :: ks =>
      if t ≤ k.time then some 0 else (lowerBoundIdx t ks).map (fun i => i + 1)

/-- Embeds the index computation of Eval (evaluator.h lines 110 to 121):
lower-bound search, failure when the iterator is at the end
(TF_VERIFY(sample != knots.end())), and a decrement exactly when the found
knot time strictly exceeds the query time and the index is positive
(TF_VERIFY(idx > 0)). -/
def adjustedIdx (knots : List TsKnot) (t : Rat) : Option Nat :=
  match lowerBoundIdx t knots with
  | none => none
  | some i =>
      match knots[i]? with
      | none => none
      | some k => some (if k.time > t ∧ 0 < i then i - 1 else i)

/-- Embeds the cache-consulting prefix of Eval (evaluator.h lines 101 to
127): right-side queries only, non-empty cache only, query time inside the
inclusive knot range only; then the adjusted lower-bound index selects a
segment, and an out-of-range index or a null entry yields no hit. -/
def cacheLookup (ev : TsEvaluator) (t : Rat) (side : TsSide) : Option SegCache :=
  if ev.segments = [] ∨ side ≠ TsSide.right then none
  else
    match ev.spline.knots.head?, ev.spline.knots.getLast? with
    | some kf, some kl =>
        if kf.time ≤ t ∧ t ≤ kl.time then
          match adjustedIdx ev.spline.knots t with
          | some idx =>
              match ev.segments[idx]? with
              | some (some c) => some c
              | some none => none
              | none => none
          | none => none
        else none
    | _, _ => none

/-- Embeds the fall-through tail of Eval (evaluator.h lines 130 to 139):
direct spline evaluation when the spline is non-empty and evaluation
succeeds, otherwise the zero value of the type. -/
def fallbackVal (s : TsSpline) (t : Rat) : Rat :=
  if s.IsEmpty = false then
    match s.Eval t with
    | some v => v
    | none => 0
  else 0

/-- TsTraits zero for the modelled value type (types.h lines 435 to 441:
value initialization, so 0 for an arithmetic type). -/
def TsTraits.zero : Rat := 0

/-- TsTraits interpolatable flag for the modelled value type (types.h). -/
def TsTraits.interpolatable : Bool := true

/-- Embeds TsEvaluator::Eval (evaluator.h lines 97 to 140): a cache hit
delegates to the cached segment, everything else falls back to direct
evaluation, and an empty spline yields the zero value. -/
def TsEvaluator.Eval (ev : TsEvaluator) (t : Rat) (side : TsSide) : Rat :=
  match cacheLookup ev t side with
  | some c => c.TypedEval t
  | none => fallbackVal ev.spline t

/-! ## Part 2: the Sdf path grammar (Sdf/pathParser.h)

The grammar productions below mirror pathParser.h one to one, over byte
lists.  The combinator semantics model the PEGTL library (vendored under
Sources/Pegtl, not under src): ordered choice with rewind, atomic sequences,
greedy repetition, non-consuming lookahead with actions disabled, and `must`
rules that turn a local mismatch into a global error (the exception that the
driver catches).  The value layer (the Action specializations and the
Sdf_ParsePath driver live in pathParser.cpp, not under src) is modelled from
the spec: matched spans of the name productions are recorded into a parse
context that accumulates the structured path. -/

namespace Sdf_PathParser

/-- Modelled from the spec: the decoded structure of a parsed path, as far as
the claims under test need it: absoluteness, the number of leading parent
references, the prim elements (name bytes plus variant selections, each a
set-name/selection pair), and the optional property span. -/
structure PrimElt where
  name : List Nat
  variants : List (List Nat × List Nat)
deriving DecidableEq

/-- Modelled from the spec: the assembled path value. -/
structure ParsedPath where
  absolute : Bool
  dotdots : Nat
  prims : List PrimElt
  prop : Option (List Nat)
deriving DecidableEq

/-- Modelled from the spec: the transient parse context (PPContext), with the
in-progress path fields plus scratch buffers for the variant set and variant
names currently being parsed. -/
structure Ctx where
  absolute : Bool
  dotdots : Nat
  prims : List PrimElt
  curVarSet : List Nat
  curVarName : List Nat
  prop : Option (List Nat)
deriving DecidableEq

def Ctx.init : Ctx := ⟨false, 0, [], [], [], none⟩

def Ctx.finish (c : Ctx) : ParsedPath := ⟨c.absolute, c.dotdots, c.prims, c.prop⟩

def Ctx.setAbs (c : Ctx) : Ctx :=
  ⟨true, c.dotdots, c.prims, c.curVarSet, c.curVarName, c.prop⟩

def Ctx.addDotDot (c : Ctx) : Ctx :=
  ⟨c.absolute, c.dotdots + 1, c.prims, c.curVarSet, c.curVarName, c.prop⟩

def Ctx.addPrim (c : Ctx) (s : List Nat) : Ctx :=
  ⟨c.absolute, c.dotdots, c.prims ++ [⟨s, []⟩], c.curVarSet, c.curVarName, c.prop⟩

def Ctx.setVarSet (c : Ctx) (s : List Nat) : Ctx :=
  ⟨c.absolute, c.dotdots, c.prims, s, c.curVarName, c.prop⟩

def Ctx.setVarName (c : Ctx) (s : List Nat) : Ctx :=
  ⟨c.absolute, c.dotdots, c.prims, c.curVarSet, s, c.prop⟩

/-- Attach one variant selection pair to the last prim element. -/
def addVariantTo : List PrimElt → List Nat × List Nat → List PrimElt
  | [], _ => []
  | [p], v => [⟨p.name, p.variants ++ [v]⟩]
  | p :: ps, v => p :: addVariantTo ps v

def Ctx.attachVariant (c : Ctx) : Ctx :=
  ⟨c.absolute, c.dotdots, addVariantTo c.prims (c.curVarSet, c.curVarName),
    c.curVarSet, c.curVarName, c.prop⟩

def Ctx.setProp (c : Ctx) (s : List Nat) : Ctx :=
  ⟨c.absolute, c.dotdots, c.prims, c.curVarSet, c.curVarName, some s⟩

/-- Result of running one grammar rule: a match with the remaining input and
the updated context, a local mismatch (the enclosing choice may rewind), or a
global error (a failed `must`, the PEGTL parse_error exception). -/
inductive PRes where
  | ok (rest : List Nat) (ctx : Ctx)
  | nomatch
  | err
deriving DecidableEq

/-- A grammar rule over byte input threading the parse context. -/
def P : Type := List Nat → Ctx → PRes

/-- Match one byte satisfying a predicate. -/
def pSat (f : Nat → Bool) : P := fun inp ctx =>
  match inp with
  | b :: rest => if f b then PRes.ok rest ctx else PRes.nomatch
  | [] => PRes.nomatch

/-- PEGTL one<...>: match one byte from a set. -/
def pOne (cs : List Nat) : P := pSat (fun b => cs.contains b)

/-- PEGTL string<...>: match an exact byte sequence. -/
def pStr : List Nat → P
  | [] => fun inp ctx => PRes.ok inp ctx
  | c :: cs => fun inp ctx =>
      match pSat (fun b => b = c) inp ctx with
      | PRes.ok rest ctx2 => pStr cs rest ctx2
      | PRes.nomatch => PRes.nomatch
      | PRes.err => PRes.err

/-- PEGTL seq: both rules in order, atomic on failure. -/
def pSeq (a b : P) : P := fun inp ctx =>
  match a inp ctx with
  | PRes.ok rest ctx2 => b rest ctx2
  | PRes.nomatch => PRes.nomatch
  | PRes.err => PRes.err

/-- PEGTL sor: ordered choice, first success wins, errors propagate. -/
def pSor (a b : P) : P := fun inp ctx =>
  match a inp ctx with
  | PRes.ok rest ctx2 => PRes.ok rest ctx2
  | PRes.nomatch => b inp ctx
  | PRes.err => PRes.err

/-- PEGTL opt: zero or one. -/
def pOpt (a : P) : P := fun inp ctx =>
  match a inp ctx with
  | PRes.ok rest ctx2 => PRes.ok rest ctx2
  | PRes.nomatch => PRes.ok inp ctx
  | PRes.err => PRes.err

/-- PEGTL at: non-consuming lookahead; actions inside are disabled, so the
context is also restored on success. -/
def pAt (a : P) : P := fun inp ctx =>
  match a inp ctx with
  | PRes.ok _ _ => PRes.ok inp ctx
  | PRes.nomatch => PRes.nomatch
  | PRes.err => PRes.err

/-- PEGTL not_at: succeed without consuming exactly when the rule fails. -/
def pNotAt (a : P) : P := fun inp ctx =>
  match a inp ctx with
  | PRes.ok _ _ => PRes.nomatch
  | PRes.nomatch => PRes.ok inp ctx
  | PRes.err => PRes.err

/-- Greedy repetition worker; the fuel is the input length, and every
successful iteration of the rules of this grammar consumes at least one
byte, so the guard never cuts a real iteration short. -/
def pStarAux (a : P) : Nat → P
  | 0 => fun inp ctx => PRes.ok inp ctx
  | n + 1 => fun inp ctx =>
      match a inp ctx with
      | PRes.ok rest ctx2 =>
          if rest.length < inp.length then pStarAux a n rest ctx2
          else PRes.ok inp ctx
      | PRes.nomatch => PRes.ok inp ctx
      | PRes.err => PRes.err

/-- PEGTL star: greedy zero-or-more repetition. -/
def pStar (a : P) : P := fun inp ctx => pStarAux a inp.length inp ctx

/-- PEGTL plus: one-or-more repetition. -/
def pPlus (a : P) : P := pSeq a (pStar a)

/-- PEGTL must: a local mismatch becomes a global error. -/
def pMust (a : P) : P := fun inp ctx =>
  match a inp ctx with
  | PRes.ok rest ctx2 => PRes.ok rest ctx2
  | PRes.nomatch => PRes.err
  | PRes.err => PRes.err

/-- PEGTL internal if_must with the false default: match the condition, then
the continuation is mandatory. -/
def pIfMust (cond body : P) : P := pSeq cond (pMust body)

/-- PEGTL internal list: one or more items separated by a separator, no
trailing separator. -/
def pList (r s : P) : P := pSeq r (pStar (pSeq s r))

/-- PEGTL pad over blanks (space and tab). -/
def pPad (r : P) : P :=
  pSeq (pStar (pOne [32, 9])) (pSeq r (pStar (pOne [32, 9])))

/-- Run a rule and, on success, apply an action to the matched span and the
context, modelling a PEGTL Action specialization.  The span is the consumed
prefix of the input. -/
def pAct (a : P) (f : List Nat → Ctx → Ctx) : P := fun inp ctx =>
  match a inp ctx with
  | PRes.ok rest ctx2 => PRes.ok rest (f (inp.take (inp.length - rest.length)) ctx2)
  | PRes.nomatch => PRes.nomatch
  | PRes.err => PRes.err

/-- PEGTL internal if_then_else: when the condition matches, the then-branch
continues from there (a later mismatch is not retried on the else-branch);
otherwise the else-branch runs from the start. -/
def pIfThenElse (c t e : P) : P := fun inp ctx =>
  match c inp ctx with
  | PRes.ok rest ctx2 => t rest ctx2
  | PRes.nomatch => e inp ctx
  | PRes.err => PRes.err

/-- Modelled from the spec: the UTF-8 read-next-code-point primitive
(PEGTL peek_utf8, vendored library not under src): decode one scalar from
the byte cursor, returning the scalar and its byte length, and report
nothing (length zero) on malformed input: truncated sequences, stray or
missing continuation bytes, overlong forms, surrogates, and values past
0x10FFFF. -/
def decodeUtf8 : List Nat → Option (Nat × Nat)
  | [] => none
  | b0 :: rest =>
      if b0 < 0x80 then some (b0, 1)
      else if b0 < 0xC2 then none
      else if b0 < 0xE0 then
        match rest with
        | b1 :: _ =>
            if 0x80 ≤ b1 ∧ b1 < 0xC0 then some ((b0 - 0xC0) * 64 + (b1 - 0x80), 2)
            else none
        | [] => none
      else if b0 < 0xF0 then
        match rest with
        | b1 :: b2 :: _ =>
            if 0x80 ≤ b1 ∧ b1 < 0xC0 ∧ 0x80 ≤ b2 ∧ b2 < 0xC0 then
              let c := (b0 - 0xE0) * 4096 + (b1 - 0x80) * 64 + (b2 - 0x80)
              if 0x800 ≤ c ∧ ¬(0xD800 ≤ c ∧ c ≤ 0xDFFF) then some (c, 3) else none
            else none
        | _ => none
      else if b0 ≤ 0xF4 then
        match rest with
        | b1 :: b2 :: b3 :: _ =>
            if 0x80 ≤ b1 ∧ b1 < 0xC0 ∧ 0x80 ≤ b2 ∧ b2 < 0xC0 ∧ 0x80 ≤ b3 ∧ b3 < 0xC0 then
              let c := (b0 - 0xF0) * 262144 + (b1 - 0x80) * 4096
                        + (b2 - 0x80) * 64 + (b3 - 0x80)
              if 0x10000 ≤ c ∧ c ≤ 0x10FFFF then some (c, 4) else none
            else none
        | _ => none
      else none

/-- Modelled from the spec: the Unicode identifier classifier
(TfIsUtf8CodePointXidStart / TfIsUtf8CodePointXidContinue live in
Tf/unicodeUtils, not under src).  The grammar is stated over an arbitrary
classifier; a concrete ASCII-faithful instance is given below for the
closed test inputs. -/
structure XidClassifier where
  isXidStart : Nat → Bool
  isXidContinue : Nat → Bool

/-- Embeds struct XidStart (pathParser.h lines 28 to 52): peek one UTF-8
code point; on a valid decode whose scalar has the XidStart property,
consume its bytes, otherwise do not match and consume nothing. -/
def XidStart (cl : XidClassifier) : P := fun inp ctx =>
  match decodeUtf8 inp with
  | some cl_len =>
      if cl.isXidStart cl_len.1 then PRes.ok (inp.drop cl_len.2) ctx else PRes.nomatch
  | none => PRes.nomatch

/-- Embeds struct XidContinue (pathParser.h lines 54 to 78). -/
def XidContinue (cl : XidClassifier) : P := fun inp ctx =>
  match decodeUtf8 inp with
  | some cl_len =>
      if cl.isXidContinue cl_len.1 then PRes.ok (inp.drop cl_len.2) ctx else PRes.nomatch
  | none => PRes.nomatch

/-- pathParser.h line 83. -/
def Slash : P := pOne [47]

/-- pathParser.h line 84. -/
def Dot : P := pOne [46]

/-- pathParser.h line 85 (two<.>), with the spec-modelled action counting a
parent reference. -/
def DotDot : P := pAct (pSeq (pOne [46]) (pOne [46])) (fun _ c => c.addDotDot)

/-- pathParser.h line 87, with the spec-modelled action marking the path
absolute. -/
def AbsoluteRoot : P := pAct Slash (fun _ c => c.setAbs)

/-- pathParser.h line 88. -/
def ReflexiveRelative : P := Dot

/-- pathParser.h line 90: a list of dot-dots separated by slashes. -/
def DotDots : P := pList DotDot Slash

/-- pathParser.h lines 95 to 97. -/
def Utf8IdentifierStart (cl : XidClassifier) : P := pSor (pOne [95]) (XidStart cl)

/-- pathParser.h lines 98 to 100. -/
def Utf8Identifier (cl : XidClassifier) : P :=
  pSeq (Utf8IdentifierStart cl) (pStar (XidContinue cl))

/-- pathParser.h line 102, with the spec-modelled action recording the prim
name span. -/
def PrimName (cl : XidClassifier) : P :=
  pAct (Utf8Identifier cl) (fun s c => c.addPrim s)

/-- pathParser.h lines 108 to 111: variant set names additionally allow
hyphens; the spec-modelled action records the span. -/
def VariantSetName (cl : XidClassifier) : P :=
  pAct (pSeq (Utf8IdentifierStart cl)
             (pStar (pSor (XidContinue cl) (pOne [45]))))
       (fun s c => c.setVarSet s)

/-- pathParser.h lines 113 to 117: an optional leading dot, then continue
characters, pipes and hyphens; may be empty; the spec-modelled action
records the span. -/
def VariantName (cl : XidClassifier) : P :=
  pAct (pSeq (pOpt (pOne [46]))
             (pStar (pSor (XidContinue cl) (pOne [124, 45]))))
       (fun s c => c.setVarName s)

/-- pathParser.h line 119. -/
def VarSelOpen : P := pPad (pOne [123])

/-- pathParser.h line 120. -/
def VarSelClose : P := pPad (pOne [125])

/-- pathParser.h lines 122 to 127: once the opening brace is consumed, the
set name, the equals sign, the optional selection and the closing brace are
mandatory; the spec-modelled action attaches the recorded pair to the last
prim element. -/
def VariantSelection (cl : XidClassifier) : P :=
  pAct (pIfMust VarSelOpen
          (pSeq (VariantSetName cl)
            (pSeq (pPad (pOne [61]))
              (pSeq (pOpt (VariantName cl)) VarSelClose))))
       (fun _ c => c.attachVariant)

/-- pathParser.h line 129. -/
def VariantSelections (cl : XidClassifier) : P := pPlus (VariantSelection cl)

/-- pathParser.h lines 131 to 133: items chained only when a lookahead sees
a separator followed by another item. -/
def LookaheadList (r s : P) : P :=
  pSeq r (pStar (pSeq (pAt (pSeq s r)) (pSeq s r)))

/-- pathParser.h lines 135 to 137. -/
def PrimElts (cl : XidClassifier) : P :=
  pSeq (LookaheadList (PrimName cl) (pSor Slash (VariantSelections cl)))
       (pOpt (VariantSelections cl))

/-- pathParser.h line 139, with the spec-modelled action recording the whole
(possibly namespaced) property span. -/
def PropertyName (cl : XidClassifier) : P :=
  pAct (pList (Utf8Identifier cl) (pOne [58])) (fun s c => c.setProp s)

/-- pathParser.h line 144. -/
def TargetPathOpen : P := pOne [91]

/-- pathParser.h line 145. -/
def TargetPathClose : P := pOne [93]

/-- pathParser.h lines 147 to 148: after the opening bracket, the nested
path and the closing bracket are mandatory. -/
def BracketPath (targ : P) : P :=
  pIfMust TargetPathOpen (pSeq targ TargetPathClose)

/-- pathParser.h line 150. -/
def RelationalAttributeName (cl : XidClassifier) : P := PropertyName cl

/-- ASCII identifier-other class of PEGTL (letters, digits, underscore),
used by the keyword rules. -/
def isIdentOther (b : Nat) : Bool :=
  (decide (48 ≤ b) && decide (b ≤ 57)) || (decide (65 ≤ b) && decide (b ≤ 90))
    || (decide (97 ≤ b) && decide (b ≤ 122)) || decide (b = 95)

/-- pathParser.h line 152: the keyword mapper (a literal not followed by an
identifier character). -/
def MapperKW : P :=
  pSeq (pStr [109, 97, 112, 112, 101, 114]) (pNotAt (pSat isIdentOther))

/-- pathParser.h line 154: a plain ASCII identifier. -/
def MapperArg : P :=
  pSeq (pSat (fun b => (decide (65 ≤ b) && decide (b ≤ 90))
                || (decide (97 ≤ b) && decide (b ≤ 122)) || decide (b = 95)))
       (pStar (pSat isIdentOther))

/-- pathParser.h line 160: the keyword expression. -/
def Expression : P :=
  pSeq (pStr [101, 120, 112, 114, 101, 115, 115, 105, 111, 110])
       (pNotAt (pSat isIdentOther))

/-- pathParser.h lines 156 to 158. -/
def MapperPathSeq (targ : P) : P :=
  pIfMust (pSeq Dot MapperKW)
          (pSeq (BracketPath targ) (pOpt (pSeq Dot MapperArg)))

/-- pathParser.h lines 162 to 166. -/
def RelAttrSeq (cl : XidClassifier) (targ : P) : P :=
  pIfMust (pOne [46])
          (pSeq (RelationalAttributeName cl)
            (pOpt (pSor (BracketPath targ)
                    (pSor (MapperPathSeq targ) (pIfMust Dot Expression)))))

/-- pathParser.h lines 168 to 169. -/
def TargetPathSeq (cl : XidClassifier) (targ : P) : P :=
  pSeq (BracketPath targ) (pOpt (RelAttrSeq cl targ))

/-- pathParser.h lines 171 to 176. -/
def PropElts (cl : XidClassifier) (targ : P) : P :=
  pSeq (pOne [46])
    (pSeq (PropertyName cl)
      (pOpt (pSor (TargetPathSeq cl targ)
              (pSor (MapperPathSeq targ) (pIfMust Dot Expression)))))

/-- pathParser.h line 178. -/
def PathElts (cl : XidClassifier) (targ : P) : P :=
  pIfThenElse (PrimElts cl) (pOpt (PropElts cl targ)) (PropElts cl targ)

/-- pathParser.h line 180. -/
def PrimFirstPathElts (cl : XidClassifier) (targ : P) : P :=
  pSeq (PrimElts cl) (pOpt (PropElts cl targ))

/-- pathParser.h lines 182 to 187, parameterized by the rule used for the
nested target and mapper paths. -/
def Path (cl : XidClassifier) (targ : P) : P :=
  pSor (pSeq AbsoluteRoot (pOpt (PrimFirstPathElts cl targ)))
    (pSor (pSeq DotDots (pOpt (pSeq Slash (PathElts cl targ))))
      (pSor (PathElts cl targ) ReflexiveRelative))

/-- The Path rule closed under its own bracket recursion (TargetPath and
MapperPath are Path again, pathParser.h lines 189 to 190).  The fuel bounds
the bracket nesting depth; every nesting level consumes an opening bracket,
so input length plus one is always enough. -/
def pathF (cl : XidClassifier) : Nat → P
  | 0 => fun _ _ => PRes.nomatch
  | n + 1 => Path cl (pathF cl n)

/-- Modelled from the spec: the Sdf_ParsePath driver (pathParser.cpp, not
under src) parses the whole input against must(Path, eof), catching the
must-error and reporting failure; on success it returns the assembled
structured path.  Anything short of a complete match of the entire string is
a failure reported to the caller. -/
def Sdf_ParsePath (cl : XidClassifier) (bytes : List Nat) : Option ParsedPath :=
  match pathF cl (bytes.length + 1) bytes Ctx.init with
  | PRes.ok rest c => if rest = [] then some c.finish else none
  | PRes.nomatch => none
  | PRes.err => none

/-- Modelled from the spec: the XID_Start table restricted to ASCII (the
letters), exactly the Unicode classification on that subset. -/
def asciiXidStart (c : Nat) : Bool :=
  (decide (65 ≤ c) && decide (c ≤ 90)) || (decide (97 ≤ c) && decide (c ≤ 122))

/-- Modelled from the spec: the XID_Continue table restricted to ASCII
(letters, digits, underscore), exactly the Unicode classification on that
subset. -/
def asciiXidContinue (c : Nat) : Bool :=
  asciiXidStart c || (decide (48 ≤ c) && decide (c ≤ 57)) || decide (c = 95)

/-- The ASCII-faithful classifier instance used by the closed test inputs. -/
def asciiCl : XidClassifier := ⟨asciiXidStart, asciiXidContinue⟩

/-- UTF-8 encoding of one scalar value, the inverse of decodeUtf8 on valid
scalars; used to quantify over identifier code points. -/
def encodeUtf8 (c : Nat) : List Nat :=
  if c < 0x80 then [c]
  else if c < 0x800 then [0xC0 + c / 64, 0x80 + c % 64]
  else if c < 0x10000 then
    [0xE0 + c / 4096, 0x80 + c / 64 % 64, 0x80 + c % 64]
  else [0xF0 + c / 262144, 0x80 + c / 4096 % 64, 0x80 + c / 64 % 64, 0x80 + c % 64]

/-- A Unicode scalar value: in range and not a surrogate. -/
def validScalar (c : Nat) : Prop := c < 0x110000 ∧ ¬(0xD800 ≤ c ∧ c ≤ 0xDFFF)

/-- UTF-8 encoding of a sequence of scalar values. -/
def encodeAll : List Nat → List Nat
  | [] => []
  | c :: cs => encodeUtf8 c ++ encodeAll cs

end Sdf_PathParser

/-! ## Theorems: the Ts spline evaluator -/

theorem buildSegments_eq_map (nc : TsKnot → TsKnot → Option SegCache)
    (l : List TsKnot) (h : ∀ p ∈ adjPairs l, (nc p.1 p.2).isSome = true) :
    buildSegments nc l = (adjPairs l).map (fun p => nc p.1 p.2) := by
  induction l with
  | nil => simp [buildSegments, adjPairs]
  | cons a tl ih =>
    cases tl with
    | nil => simp [buildSegments, adjPairs]
    | cons b rest =>
      have hab : (nc a b).isSome = true := h (a, b) (by simp [adjPairs])
      obtain ⟨c, hc⟩ := Option.isSome_iff_exists.mp hab
      have ih2 := ih (fun p hp => h p (by simp [adjPairs, hp]))
      simp [buildSegments, adjPairs, hc, ih2]

theorem adjPairs_length (l : List TsKnot) : (adjPairs l).length = l.length - 1 := by
  induction l with
  | nil => simp [adjPairs]
  | cons a tl ih =>
    cases tl with
    | nil => simp [adjPairs]
    | cons b rest => simpa [adjPairs] using ih

/-- C3: TsEvaluator construction builds no cache entries for splines with
fewer than two knots, and none when no knot has a curve outgoing segment;
otherwise, assuming each per-segment cache construction succeeds, it builds
exactly one entry per adjacent knot pair (n-1 entries for n knots), in knot
order, each derived only from that pair. -/
theorem C3_constructor_segments (nc : TsKnot → TsKnot → Option SegCache)
    (s : TsSpline) :
    (s.knots.length < 2 → (TsEvaluator.ofSpline nc s).segments = []) ∧
    ((∀ k ∈ s.knots, k.nextInterp ≠ TsInterpMode.curve) →
      (TsEvaluator.ofSpline nc s).segments = []) ∧
    ((∃ k ∈ s.knots, k.nextInterp = TsInterpMode.curve) →
      (∀ p ∈ adjPairs s.knots, (nc p.1 p.2).isSome = true) →
      (TsEvaluator.ofSpline nc s).segments
          = (adjPairs s.knots).map (fun p => nc p.1 p.2) ∧
      (TsEvaluator.ofSpline nc s).segments.length = s.knots.length - 1) := by
  refine ⟨?_, ?_, ?_⟩
  · intro hlen
    simp only [TsEvaluator.ofSpline]
    rw [if_neg (by omega)]
  · intro hnone
    simp only [TsEvaluator.ofSpline]
    split
    · rw [if_neg]
      simp only [List.any_eq_true, decide_eq_true_eq, not_exists]
      rintro k ⟨hk, hcurve⟩
      exact hnone k hk hcurve
    · rfl
  · rintro ⟨k, hk, hcurve⟩ hall
    have hany : s.knots.any (fun k => decide (k.nextInterp = TsInterpMode.curve))
        = true := by
      simp only [List.any_eq_true, decide_eq_true_eq]
      exact ⟨k, hk, hcurve⟩
    by_cases hlen : 1 < s.knots.length
    · simp only [TsEvaluator.ofSpline, if_pos hlen, if_pos hany]
      refine ⟨buildSegments_eq_map nc s.knots hall, ?_⟩
      rw [buildSegments_eq_map nc s.knots hall, List.length_map, adjPairs_length]
    · have hap : adjPairs s.knots = [] := by
        match hknots : s.knots with
        | [] => simp [adjPairs]
        | [a] => simp [adjPairs]
        | a :: b :: rest => rw [hknots] at hlen; simp at hlen
      simp only [TsEvaluator.ofSpline, if_neg hlen, hap]
      constructor
      · rfl
      · simp only [List.length_nil, List.map_nil]
        omega

/-- C3 witness: a concrete two-knot curve spline builds exactly one cache
entry, derived from that adjacent pair. -/
theorem C3_constructor_segments_witness :
    (TsEvaluator.ofSpline Ts_EvalCache.New
        ⟨[⟨0, 0, 0, 0, TsInterpMode.curve⟩, ⟨1, 1, 0, 0, TsInterpMode.held⟩]⟩).segments
      = (adjPairs [⟨0, 0, 0, 0, TsInterpMode.curve⟩, ⟨1, 1, 0, 0, TsInterpMode.held⟩]).map
          (fun p => Ts_EvalCache.New p.1 p.2) ∧
    (TsEvaluator.ofSpline Ts_EvalCache.New
        ⟨[⟨0, 0, 0, 0, TsInterpMode.curve⟩, ⟨1, 1, 0, 0, TsInterpMode.held⟩]⟩).segments.length
      = 1 :=
  (C3_constructor_segments Ts_EvalCache.New
      ⟨[⟨0, 0, 0, 0, TsInterpMode.curve⟩, ⟨1, 1, 0, 0, TsInterpMode.held⟩]⟩).2.2
    ⟨⟨0, 0, 0, 0, TsInterpMode.curve⟩, by simp, rfl⟩
    (by intro p hp; simp [Ts_EvalCache.New])

/-- C5: an evaluator over an empty spline, including the default-constructed
evaluator, returns the TsTraits zero value for every query time and side. -/
theorem C5_empty_spline_zero : ∀ (t : Rat) (side : TsSide),
    (TsEvaluator.ofSpline Ts_EvalCache.New ⟨[]⟩).Eval t side = TsTraits.zero ∧
    TsEvaluator.empty.Eval t side = TsTraits.zero := by
  intro t side
  exact ⟨rfl, rfl⟩

theorem cacheLookup_mem (ev : TsEvaluator) (t : Rat) (side : TsSide)
    (c : SegCache) (h : cacheLookup ev t side = some c) :
    ∃ i : Nat, ev.segments[i]? = some (some c) := by
  unfold cacheLookup at h
  split at h
  · exact absurd h (by simp)
  · split at h
    · split at h
      · split at h
        · split at h
          · rename_i c2 heq
            obtain rfl : c2 = c := Option.some_inj.mp h
            exact ⟨_, heq⟩
          · exact absurd h (by simp)
          · exact absurd h (by simp)
        · exact absurd h (by simp)
      · exact absurd h (by simp)
    · exact absurd h (by simp)

/-- C4: TsEvaluator::Eval is total and never faults: for every evaluator,
query time and side, the result is either the cached evaluation of a segment
that the cache vector really holds at a valid index with a non-null entry,
or exactly the defensive fall-through (direct spline evaluation, or the zero
value for an empty spline). -/
theorem C4_eval_safe : ∀ (ev : TsEvaluator) (t : Rat) (side : TsSide),
    (∃ (i : Nat) (c : SegCache), ev.segments[i]? = some (some c) ∧ cacheLookup ev t side = some c ∧
      ev.Eval t side = c.TypedEval t) ∨
    (cacheLookup ev t side = none ∧ ev.Eval t side = fallbackVal ev.spline t) := by
  intro ev t side
  cases h : cacheLookup ev t side with
  | none =>
    right
    exact ⟨rfl, by simp [TsEvaluator.Eval, h]⟩
  | some c =>
    left
    obtain ⟨i, hi⟩ := cacheLookup_mem ev t side c h
    exact ⟨i, c, hi, rfl, by simp [TsEvaluator.Eval, h]⟩

/-- C1: for a spline with exactly two knots whose segment uses curve
interpolation, the cached evaluator at the midpoint time with right-side
evaluation returns the same value as the direct spline evaluation there. -/
theorem C1_cached_midpoint_matches_direct (k0 k1 : TsKnot)
    (hlt : k0.time < k1.time) (hcurve : k0.nextInterp = TsInterpMode.curve) :
    TsSpline.Eval ⟨[k0, k1]⟩ ((k0.time + k1.time) / 2) =
      some ((TsEvaluator.ofSpline Ts_EvalCache.New ⟨[k0, k1]⟩).Eval
              ((k0.time + k1.time) / 2) TsSide.right) := by
  set t := (k0.time + k1.time) / 2 with ht
  have h1 : k0.time < t := by rw [ht]; linarith
  have h2 : t < k1.time := by rw [ht]; linarith
  have hev : TsEvaluator.ofSpline Ts_EvalCache.New ⟨[k0, k1]⟩
      = ⟨[some ⟨k0, k1⟩], ⟨[k0, k1]⟩⟩ := by
    simp [TsEvaluator.ofSpline, hcurve, buildSegments, Ts_EvalCache.New]
  have hlb : lowerBoundIdx t [k0, k1] = some 1 := by
    simp [lowerBoundIdx, not_le.mpr h1, le_of_lt h2]
  have hadj : adjustedIdx [k0, k1] t = some 0 := by
    simp [adjustedIdx, hlb, h2]
  have hcache : cacheLookup ⟨[some ⟨k0, k1⟩], ⟨[k0, k1]⟩⟩ t TsSide.right
      = some ⟨k0, k1⟩ := by
    unfold cacheLookup
    rw [if_neg (by simp)]
    simp only [List.head?_cons, List.getLast?_cons_cons, List.getLast?_singleton]
    rw [if_pos ⟨le_of_lt h1, le_of_lt h2⟩, hadj]
    rfl
  rw [hev]
  simp only [TsEvaluator.Eval, hcache, TsSpline.Eval, evalKnots]
  rw [if_neg (not_le.mpr h1), if_pos h2]
  rfl

/-- C1 witness: a concrete two-knot curve spline, evaluated at its midpoint. -/
theorem C1_cached_midpoint_matches_direct_witness :
    (⟨0, 0, 0, 0, TsInterpMode.curve⟩ : TsKnot).time
        < (⟨1, 1, 0, 0, TsInterpMode.held⟩ : TsKnot).time ∧
    TsSpline.Eval ⟨[⟨0, 0, 0, 0, TsInterpMode.curve⟩, ⟨1, 1, 0, 0, TsInterpMode.held⟩]⟩
        (((0 : Rat) + 1) / 2) =
      some ((TsEvaluator.ofSpline Ts_EvalCache.New
              ⟨[⟨0, 0, 0, 0, TsInterpMode.curve⟩, ⟨1, 1, 0, 0, TsInterpMode.held⟩]⟩).Eval
            (((0 : Rat) + 1) / 2) TsSide.right) :=
  ⟨by norm_num,
   C1_cached_midpoint_matches_direct ⟨0, 0, 0, 0, TsInterpMode.curve⟩
     ⟨1, 1, 0, 0, TsInterpMode.held⟩ (by norm_num) rfl⟩

theorem lowerBoundIdx_none_forall (t : Rat) (l : List TsKnot)
    (h : lowerBoundIdx t l = none) : ∀ k ∈ l, k.time < t := by
  induction l with
  | nil => simp
  | cons k ks ih =>
    unfold lowerBoundIdx at h
    split at h
    · exact absurd h (by simp)
    · rename_i hnle
      intro a ha
      rcases List.mem_cons.mp ha with rfl | hmem
      · exact lt_of_not_le hnle
      · exact ih (Option.map_eq_none'.mp h) a hmem

theorem lowerBoundIdx_sound (t : Rat) (l : List TsKnot) (i : Nat)
    (h : lowerBoundIdx t l = some i) :
    ∃ k, l[i]? = some k ∧ t ≤ k.time ∧
      ∀ j kj, j < i → l[j]? = some kj → kj.time < t := by
  induction l generalizing i with
  | nil => simp [lowerBoundIdx] at h
  | cons k ks ih =>
    unfold lowerBoundIdx at h
    split at h
    · rename_i hle
      obtain rfl : (0 : Nat) = i := Option.some_inj.mp h
      refine ⟨k, by simp, hle, ?_⟩
      intro j kj hj
      omega
    · rename_i hnle
      obtain ⟨i2, hi2, hplus⟩ := Option.map_eq_some'.mp h
      subst hplus
      obtain ⟨k2, hk2, hle2, hall2⟩ := ih i2 hi2
      refine ⟨k2, by simpa using hk2, hle2, ?_⟩
      intro j kj hj hkj
      cases j with
      | zero =>
        obtain rfl : k = kj := by simpa using hkj
        exact lt_of_not_le hnle
      | succ j2 => exact hall2 j2 kj (by omega) (by simpa using hkj)

theorem pairwise_time_lt {l : List TsKnot}
    (hs : List.Pairwise (fun a b : TsKnot => a.time < b.time) l) :
    ∀ (i j : Nat) (ki kj : TsKnot), i < j → l[i]? = some ki → l[j]? = some kj →
      ki.time < kj.time := by
  intro i j ki kj hij hi hj
  obtain ⟨hi2, rfl⟩ := List.getElem?_eq_some.mp hi
  obtain ⟨hj2, rfl⟩ := List.getElem?_eq_some.mp hj
  have := List.pairwise_iff_get.mp hs ⟨i, hi2⟩ ⟨j, hj2⟩ hij
  simpa using this

/-- C2 amended: in the cached lookup of TsEvaluator::Eval, the lower-bound
search yields the first knot whose time is at least the query time (not the
greatest one below it); the index is then decremented exactly when the found
knot time strictly exceeds the query time, which happens exactly when the
query time equals no knot time; in particular, at a query equal to the very
first knot time the found knot time equals the query and no decrement
occurs.  After the adjustment the index names the knot with the greatest
time at most the query time. -/
theorem C2_lower_bound_and_adjustment (knots : List TsKnot) (t : Rat)
    (hsort : List.Pairwise (fun a b : TsKnot => a.time < b.time) knots)
    (k0 klast : TsKnot)
    (hh : knots.head? = some k0) (hl : knots.getLast? = some klast)
    (h0 : k0.time ≤ t) (h1 : t ≤ klast.time) :
    ∃ i k, lowerBoundIdx t knots = some i ∧ knots[i]? = some k ∧
      t ≤ k.time ∧
      (∀ j kj, j < i → knots[j]? = some kj → kj.time < t) ∧
      (t < k.time ↔ ∀ kj ∈ knots, kj.time ≠ t) ∧
      ∃ ka, adjustedIdx knots t = some (if k.time > t ∧ 0 < i then i - 1 else i) ∧
        knots[(if k.time > t ∧ 0 < i then i - 1 else i)]? = some ka ∧
        ka.time ≤ t ∧ ∀ kj ∈ knots, kj.time ≤ t → kj.time ≤ ka.time := by
  have hlastmem : klast ∈ knots := List.mem_of_mem_getLast? hl
  cases hlb : lowerBoundIdx t knots with
  | none =>
    exact absurd (lowerBoundIdx_none_forall t knots hlb klast hlastmem)
      (by intro hc; linarith [hc])
  | some i =>
    obtain ⟨k, hk, htk, hall⟩ := lowerBoundIdx_sound t knots i hlb
    have hkmem : k ∈ knots := List.getElem?_mem hk
    have hiff : t < k.time ↔ ∀ kj ∈ knots, kj.time ≠ t := by
      constructor
      · intro hlt kj hmem heq
        obtain ⟨j, hj⟩ := List.getElem?_of_mem hmem
        rcases lt_trichotomy j i with hji | hji | hij
        · have := hall j kj hji hj
          rw [heq] at this
          exact lt_irrefl t this
        · subst hji
          rw [hj] at hk
          obtain rfl : kj = k := Option.some_inj.mp hk
          rw [heq] at hlt
          exact lt_irrefl t hlt
        · have := pairwise_time_lt hsort i j k kj hij hk hj
          rw [heq] at this
          exact absurd htk (not_le.mpr this)
      · intro hne
        rcases lt_or_eq_of_le htk with hlt | heq
        · exact hlt
        · exact absurd heq.symm (hne k hkmem)
    have hadj : adjustedIdx knots t = some (if k.time > t ∧ 0 < i then i - 1 else i) := by
      simp only [adjustedIdx, hlb, hk]
    by_cases hdec : k.time > t ∧ 0 < i
    · obtain ⟨hgt, hipos⟩ := hdec
      have hilen : i < knots.length := by
        obtain ⟨h2, _⟩ := List.getElem?_eq_some.mp hk
        exact h2
      have hi1len : i - 1 < knots.length := by omega
      have hka : knots[i - 1]? = some knots[i - 1] := List.getElem?_eq_getElem hi1len
      have hka_lt : knots[i - 1].time < t := hall (i - 1) _ (by omega) hka
      refine ⟨i, k, rfl, hk, htk, hall, hiff, knots[i - 1], hadj, ?_, le_of_lt hka_lt, ?_⟩
      · rw [if_pos ⟨hgt, hipos⟩]
        exact hka
      · intro kj hmem hle
        obtain ⟨j, hj⟩ := List.getElem?_of_mem hmem
        rcases lt_trichotomy j (i - 1) with hji | hji | hij
        · exact le_of_lt (pairwise_time_lt hsort j (i - 1) kj _ hji hj hka)
        · subst hji
          rw [hj] at hka
          exact le_of_eq (by rw [Option.some_inj.mp hka])
        · have hij2 : i ≤ j := by omega
          rcases eq_or_lt_of_le hij2 with hij3 | hlt2
          · subst hij3
            rw [hj] at hk
            obtain rfl : kj = k := Option.some_inj.mp hk
            exact absurd hle (not_le.mpr hgt)
          · have := pairwise_time_lt hsort i j k kj hlt2 hk hj
            exact absurd hle (not_le.mpr (lt_trans hgt this))
    · have hkt : k.time = t := by
        rcases lt_or_eq_of_le htk with hlt | heq
        · exfalso
          have hi0 : i = 0 := by
            by_contra hne
            exact hdec ⟨hlt, by omega⟩
          subst hi0
          rw [List.head?_eq_getElem? knots, hk] at hh
          obtain rfl : k = k0 := Option.some_inj.mp hh
          linarith
        · exact heq.symm
      refine ⟨i, k, rfl, hk, htk, hall, hiff, k, hadj, ?_, le_of_eq hkt, ?_⟩
      · rw [if_neg hdec]
        exact hk
      · intro kj hmem hle
        rw [hkt]
        exact hle

/-- C2 counterexample: with knots at times 0 and 1, a query at time 0 (the
very first knot time) makes the lower-bound search land exactly on the first
knot, whose time does not strictly exceed the query, so no decrement occurs
there; the decrement occurs instead at the non-knot query time one half. -/
theorem C2_counterexample_no_decrement_at_first_knot :
    ([⟨0, 0, 0, 0, TsInterpMode.curve⟩, ⟨1, 1, 0, 0, TsInterpMode.held⟩]
        : List TsKnot).head? = some ⟨0, 0, 0, 0, TsInterpMode.curve⟩ ∧
    lowerBoundIdx 0
        [⟨0, 0, 0, 0, TsInterpMode.curve⟩, ⟨1, 1, 0, 0, TsInterpMode.held⟩] = some 0 ∧
    ¬((⟨0, 0, 0, 0, TsInterpMode.curve⟩ : TsKnot).time > (0 : Rat)) ∧
    adjustedIdx
        [⟨0, 0, 0, 0, TsInterpMode.curve⟩, ⟨1, 1, 0, 0, TsInterpMode.held⟩] 0 = some 0 ∧
    lowerBoundIdx (1 / 2)
        [⟨0, 0, 0, 0, TsInterpMode.curve⟩, ⟨1, 1, 0, 0, TsInterpMode.held⟩] = some 1 ∧
    adjustedIdx
        [⟨0, 0, 0, 0, TsInterpMode.curve⟩, ⟨1, 1, 0, 0, TsInterpMode.held⟩] (1 / 2)
      = some 0 := by
  refine ⟨rfl, by decide, by norm_num, by decide, ?_, ?_⟩
  · norm_num [lowerBoundIdx]
  · norm_num [adjustedIdx, lowerBoundIdx]

/-- C2 witness: the amended characterization instantiated on the concrete
two-knot spline at the non-knot query time one half. -/
theorem C2_lower_bound_and_adjustment_witness :
    ∃ i k, lowerBoundIdx (1 / 2)
        [⟨0, 0, 0, 0, TsInterpMode.curve⟩, ⟨1, 1, 0, 0, TsInterpMode.held⟩] = some i ∧
      ([⟨0, 0, 0, 0, TsInterpMode.curve⟩, ⟨1, 1, 0, 0, TsInterpMode.held⟩]
          : List TsKnot)[i]? = some k ∧
      (1 / 2 : Rat) ≤ k.time ∧
      (∀ j kj, j < i →
        ([⟨0, 0, 0, 0, TsInterpMode.curve⟩, ⟨1, 1, 0, 0, TsInterpMode.held⟩]
            : List TsKnot)[j]? = some kj → kj.time < 1 / 2) ∧
      ((1 / 2 : Rat) < k.time ↔
        ∀ kj ∈ ([⟨0, 0, 0, 0, TsInterpMode.curve⟩, ⟨1, 1, 0, 0, TsInterpMode.held⟩]
            : List TsKnot), kj.time ≠ 1 / 2) ∧
      ∃ ka, adjustedIdx
          [⟨0, 0, 0, 0, TsInterpMode.curve⟩, ⟨1, 1, 0, 0, TsInterpMode.held⟩] (1 / 2)
            = some (if k.time > 1 / 2 ∧ 0 < i then i - 1 else i) ∧
        ([⟨0, 0, 0, 0, TsInterpMode.curve⟩, ⟨1, 1, 0, 0, TsInterpMode.held⟩]
            : List TsKnot)[(if k.time > 1 / 2 ∧ 0 < i then i - 1 else i)]? = some ka ∧
        ka.time ≤ 1 / 2 ∧
        ∀ kj ∈ ([⟨0, 0, 0, 0, TsInterpMode.curve⟩, ⟨1, 1, 0, 0, TsInterpMode.held⟩]
            : List TsKnot), kj.time ≤ 1 / 2 → kj.time ≤ ka.time :=
  C2_lower_bound_and_adjustment
    [⟨0, 0, 0, 0, TsInterpMode.curve⟩, ⟨1, 1, 0, 0, TsInterpMode.held⟩] (1 / 2)
    (by norm_num [List.pairwise_cons])
    ⟨0, 0, 0, 0, TsInterpMode.curve⟩ ⟨1, 1, 0, 0, TsInterpMode.held⟩
    rfl rfl (by norm_num) (by norm_num)

/-! ## Theorems: the Sdf path grammar -/

open Sdf_PathParser in
/-- C7: parsing the seven bytes of the text slash A dot r e l bracket fails:
after the opening bracket the nested target path and the closing bracket are
mandatory, so the unterminated bracket raises the global must-error, which
the driver reports as a parse failure, never a success. -/
theorem C7_unterminated_bracket_fails :
    pathF asciiCl 8 [47, 65, 46, 114, 101, 108, 91] Ctx.init = PRes.err ∧
    Sdf_ParsePath asciiCl [47, 65, 46, 114, 101, 108, 91] = none := by
  constructor <;> decide

open Sdf_PathParser in
/-- C8 counterexample: parsing the three bytes of the text dot dot slash
(two dots then a trailing slash with no further element) fails; the DotDots
list rule leaves the trailing slash unconsumed and the mandatory
end-of-input check rejects it. -/
theorem C8_counterexample_trailing_slash :
    Sdf_ParsePath asciiCl [46, 46, 47] = none := by
  decide

open Sdf_PathParser in
/-- C8 amended: parsing the text dot dot slash dot dot slash f o o succeeds
with a relative path of two parent-reference steps and one prim element
named foo; dot-dots alone (the two bytes dot dot, with no trailing slash)
also succeed; dot-dots followed by a trailing slash and no further element
fail. -/
theorem C8_parent_reference_chains :
    Sdf_ParsePath asciiCl [46, 46, 47, 46, 46, 47, 102, 111, 111]
      = some ⟨false, 2, [⟨[102, 111, 111], []⟩], none⟩ ∧
    Sdf_ParsePath asciiCl [46, 46] = some ⟨false, 1, [], none⟩ ∧
    Sdf_ParsePath asciiCl [46, 46, 47] = none := by
  refine ⟨by decide, by decide, by decide⟩

open Sdf_PathParser in
/-- C9: parsing the text slash A brace l o d equals h i g h brace succeeds
with prim element A carrying the single variant selection (lod, high), and
parsing slash A brace l o d equals brace succeeds with an empty selection
name. -/
theorem C9_variant_selection :
    Sdf_ParsePath asciiCl [47, 65, 123, 108, 111, 100, 61, 104, 105, 103, 104, 125]
      = some ⟨true, 0, [⟨[65], [([108, 111, 100], [104, 105, 103, 104])]⟩], none⟩ ∧
    Sdf_ParsePath asciiCl [47, 65, 123, 108, 111, 100, 61, 125]
      = some ⟨true, 0, [⟨[65], [([108, 111, 100], [])]⟩], none⟩ := by
  constructor <;> decide

namespace Sdf_PathParser

theorem encodeUtf8_length_pos (c : Nat) : 0 < (encodeUtf8 c).length := by
  unfold encodeUtf8
  split_ifs <;> simp

theorem encodeUtf8_small (c : Nat) (h : c < 0x80) : encodeUtf8 c = [c] := by
  simp [encodeUtf8, h]

theorem encodeUtf8_head_large (c : Nat) (h : ¬ c < 0x80) :
    ∃ b t, encodeUtf8 c = b :: t ∧ 0xC0 ≤ b := by
  unfold encodeUtf8
  rw [if_neg h]
  split_ifs with h2 h3
  · exact ⟨_, _, rfl, by omega⟩
  · exact ⟨_, _, rfl, by omega⟩
  · exact ⟨_, _, rfl, by omega⟩

theorem decode_encode (c : Nat) (h : validScalar c) (r : List Nat) :
    decodeUtf8 (encodeUtf8 c ++ r) = some (c, (encodeUtf8 c).length) := by
  obtain ⟨hlt, hsur⟩ := h
  by_cases h1 : c < 0x80
  · rw [encodeUtf8_small c h1]
    simp [decodeUtf8, h1]
  · by_cases h2 : c < 0x800
    · simp only [encodeUtf8, if_neg h1, if_pos h2, List.cons_append, List.nil_append,
        List.length_cons, List.length_nil, decodeUtf8]
      split_ifs <;>
        first
          | (exfalso; omega)
          | (simp only [Option.some.injEq, Prod.mk.injEq]
             refine ⟨by omega, by trivial⟩)
    · by_cases h3 : c < 0x10000
      · simp only [encodeUtf8, if_neg h1, if_neg h2, if_pos h3, List.cons_append,
          List.nil_append, List.length_cons, List.length_nil, decodeUtf8]
        split_ifs <;>
          first
            | (exfalso; omega)
            | (simp only [Option.some.injEq, Prod.mk.injEq]
               refine ⟨by omega, by trivial⟩)
      · simp only [encodeUtf8, if_neg h1, if_neg h2, if_neg h3, List.cons_append,
          List.nil_append, List.length_cons, List.length_nil, decodeUtf8]
        split_ifs <;>
          first
            | (exfalso; omega)
            | (simp only [Option.some.injEq, Prod.mk.injEq]
               refine ⟨by omega, by trivial⟩)

theorem encode_append_drop (c : Nat) (r : List Nat) :
    (encodeUtf8 c ++ r).drop (encodeUtf8 c).length = r :=
  List.drop_left _ _

end Sdf_PathParser

namespace Sdf_PathParser

theorem XidStart_encode (cl : XidClassifier) (c : Nat) (r : List Nat) (ctx : Ctx)
    (hv : validScalar c) (hs : cl.isXidStart c = true) :
    XidStart cl (encodeUtf8 c ++ r) ctx = PRes.ok r ctx := by
  unfold XidStart
  rw [decode_encode c hv r]
  simp [hs, encode_append_drop]

theorem XidContinue_encode (cl : XidClassifier) (c : Nat) (r : List Nat) (ctx : Ctx)
    (hv : validScalar c) (hs : cl.isXidContinue c = true) :
    XidContinue cl (encodeUtf8 c ++ r) ctx = PRes.ok r ctx := by
  unfold XidContinue
  rw [decode_encode c hv r]
  simp [hs, encode_append_drop]

theorem XidStart_nomatch (cl : XidClassifier) (b : List Nat) (ctx : Ctx)
    (h : decodeUtf8 b = none) : XidStart cl b ctx = PRes.nomatch := by
  unfold XidStart
  rw [h]

theorem XidContinue_nomatch (cl : XidClassifier) (b : List Nat) (ctx : Ctx)
    (h : decodeUtf8 b = none) : XidContinue cl b ctx = PRes.nomatch := by
  unfold XidContinue
  rw [h]

theorem pStarAux_xidContinue (cl : XidClassifier) (ctx : Ctx) (cs : List Nat) :
    ∀ n : Nat, (encodeAll cs).length ≤ n →
      (∀ x ∈ cs, validScalar x) → (∀ x ∈ cs, cl.isXidContinue x = true) →
      pStarAux (XidContinue cl) n (encodeAll cs) ctx = PRes.ok [] ctx := by
  induction cs with
  | nil =>
    intro n _ _ _
    cases n with
    | zero => rfl
    | succ m =>
      show pStarAux (XidContinue cl) (m + 1) [] ctx = PRes.ok [] ctx
      simp [pStarAux, XidContinue, decodeUtf8]
  | cons x cs ih =>
    intro n hn hv hc
    have hxv : validScalar x := hv x (by simp)
    have hxc : cl.isXidContinue x = true := hc x (by simp)
    have hpos : 0 < (encodeUtf8 x).length := encodeUtf8_length_pos x
    have hlen : (encodeAll (x :: cs)).length
        = (encodeUtf8 x).length + (encodeAll cs).length := by
      simp [encodeAll]
    cases n with
    | zero => exact absurd hn (by omega)
    | succ m =>
      have hstep : XidContinue cl (encodeAll (x :: cs)) ctx
          = PRes.ok (encodeAll cs) ctx := by
        show XidContinue cl (encodeUtf8 x ++ encodeAll cs) ctx = _
        exact XidContinue_encode cl x (encodeAll cs) ctx hxv hxc
      have hlt : (encodeAll cs).length < (encodeAll (x :: cs)).length := by omega
      simp only [pStarAux, hstep, if_pos hlt]
      exact ih m (by omega) (fun y hy => hv y (by simp [hy]))
        (fun y hy => hc y (by simp [hy]))

theorem pStar_xidContinue (cl : XidClassifier) (ctx : Ctx) (cs : List Nat)
    (hv : ∀ x ∈ cs, validScalar x) (hc : ∀ x ∈ cs, cl.isXidContinue x = true) :
    pStar (XidContinue cl) (encodeAll cs) ctx = PRes.ok [] ctx :=
  pStarAux_xidContinue cl ctx cs (encodeAll cs).length (le_refl _) hv hc

theorem pOne95_nomatch (b0 : Nat) (bs : List Nat) (ctx : Ctx) (h : b0 ≠ 95) :
    pOne [95] (b0 :: bs) ctx = PRes.nomatch := by
  have hbeq : (b0 == 95) = false := by simpa using h
  simp [pOne, pSat, List.contains, List.elem, hbeq]

theorem Utf8IdentifierStart_encode (cl : XidClassifier) (c : Nat) (r : List Nat)
    (ctx : Ctx) (hv : validScalar c) (hstart : c = 95 ∨ cl.isXidStart c = true) :
    Utf8IdentifierStart cl (encodeUtf8 c ++ r) ctx = PRes.ok r ctx := by
  unfold Utf8IdentifierStart pSor
  by_cases h95 : c = 95
  · subst h95
    rw [encodeUtf8_small 95 (by omega)]
    simp [pOne, pSat, List.contains, List.elem]
  · have hs : cl.isXidStart c = true := by
      rcases hstart with rfl | hs
      · exact absurd rfl h95
      · exact hs
    have hone : pOne [95] (encodeUtf8 c ++ r) ctx = PRes.nomatch := by
      by_cases hsmall : c < 0x80
      · rw [encodeUtf8_small c hsmall]
        exact pOne95_nomatch c r ctx h95
      · obtain ⟨b, t, hbt, hb⟩ := encodeUtf8_head_large c hsmall
        rw [hbt]
        exact pOne95_nomatch b (t ++ r) ctx (by omega)
    rw [hone]
    exact XidStart_encode cl c r ctx hv hs

theorem Utf8Identifier_full (cl : XidClassifier) (c : Nat) (cs : List Nat) (ctx : Ctx)
    (hvc : validScalar c) (hvs : ∀ x ∈ cs, validScalar x)
    (hstart : c = 95 ∨ cl.isXidStart c = true)
    (hcont : ∀ x ∈ cs, cl.isXidContinue x = true) :
    Utf8Identifier cl (encodeUtf8 c ++ encodeAll cs) ctx = PRes.ok [] ctx := by
  unfold Utf8Identifier
  simp only [pSeq, Utf8IdentifierStart_encode cl c (encodeAll cs) ctx hvc hstart]
  exact pStar_xidContinue cl ctx cs hvs hcont

theorem variantSelections_nil (cl : XidClassifier) (ctx : Ctx) :
    VariantSelections cl [] ctx = PRes.nomatch := rfl

theorem propElts_nil (cl : XidClassifier) (tp : P) (ctx : Ctx) :
    PropElts cl tp [] ctx = PRes.nomatch := rfl

theorem PrimName_full (cl : XidClassifier) (c : Nat) (cs : List Nat) (ctx : Ctx)
    (hvc : validScalar c) (hvs : ∀ x ∈ cs, validScalar x)
    (hstart : c = 95 ∨ cl.isXidStart c = true)
    (hcont : ∀ x ∈ cs, cl.isXidContinue x = true) :
    PrimName cl (encodeUtf8 c ++ encodeAll cs) ctx
      = PRes.ok [] (ctx.addPrim (encodeUtf8 c ++ encodeAll cs)) := by
  unfold PrimName pAct
  rw [Utf8Identifier_full cl c cs ctx hvc hvs hstart hcont]
  simp
  rw [← List.length_append, List.take_length]

theorem PrimElts_full (cl : XidClassifier) (c : Nat) (cs : List Nat) (ctx : Ctx)
    (hvc : validScalar c) (hvs : ∀ x ∈ cs, validScalar x)
    (hstart : c = 95 ∨ cl.isXidStart c = true)
    (hcont : ∀ x ∈ cs, cl.isXidContinue x = true) :
    PrimElts cl (encodeUtf8 c ++ encodeAll cs) ctx
      = PRes.ok [] (ctx.addPrim (encodeUtf8 c ++ encodeAll cs)) := by
  unfold PrimElts LookaheadList
  simp only [pSeq, PrimName_full cl c cs ctx hvc hvs hstart hcont]
  simp [pStar, pStarAux, pOpt, variantSelections_nil]

theorem PrimFirstPathElts_full (cl : XidClassifier) (tp : P) (c : Nat)
    (cs : List Nat) (ctx : Ctx)
    (hvc : validScalar c) (hvs : ∀ x ∈ cs, validScalar x)
    (hstart : c = 95 ∨ cl.isXidStart c = true)
    (hcont : ∀ x ∈ cs, cl.isXidContinue x = true) :
    PrimFirstPathElts cl tp (encodeUtf8 c ++ encodeAll cs) ctx
      = PRes.ok [] (ctx.addPrim (encodeUtf8 c ++ encodeAll cs)) := by
  unfold PrimFirstPathElts
  simp only [pSeq, PrimElts_full cl c cs ctx hvc hvs hstart hcont]
  simp [pOpt, propElts_nil]

theorem AbsoluteRoot_cons (s : List Nat) (ctx : Ctx) :
    AbsoluteRoot (47 :: s) ctx = PRes.ok s ctx.setAbs := by
  simp [AbsoluteRoot, pAct, Slash, pOne, pSat, List.contains, List.elem]

theorem Path_slash_ident (cl : XidClassifier) (tp : P) (c : Nat) (cs : List Nat)
    (ctx : Ctx)
    (hvc : validScalar c) (hvs : ∀ x ∈ cs, validScalar x)
    (hstart : c = 95 ∨ cl.isXidStart c = true)
    (hcont : ∀ x ∈ cs, cl.isXidContinue x = true) :
    Path cl tp (47 :: (encodeUtf8 c ++ encodeAll cs)) ctx
      = PRes.ok [] ((ctx.setAbs).addPrim (encodeUtf8 c ++ encodeAll cs)) := by
  unfold Path
  simp only [pSor, pSeq, AbsoluteRoot_cons, pOpt,
    PrimFirstPathElts_full cl tp c cs ctx.setAbs hvc hvs hstart hcont]

end Sdf_PathParser

open Sdf_PathParser in
/-- C6: for every identifier made of a start code point (underscore or an
XidStart point) followed by XidContinue code points, parsing a slash followed
by its UTF-8 encoding succeeds and yields an absolute path with exactly one
prim element named by those identifier bytes. -/
theorem C6_valid_identifier_single_prim (cl : XidClassifier) (c : Nat)
    (cs : List Nat)
    (hvc : validScalar c) (hvs : ∀ x ∈ cs, validScalar x)
    (hstart : c = 95 ∨ cl.isXidStart c = true)
    (hcont : ∀ x ∈ cs, cl.isXidContinue x = true) :
    Sdf_ParsePath cl (47 :: (encodeUtf8 c ++ encodeAll cs))
      = some ⟨true, 0, [⟨encodeUtf8 c ++ encodeAll cs, []⟩], none⟩ := by
  unfold Sdf_ParsePath
  rw [show (47 :: (encodeUtf8 c ++ encodeAll cs)).length + 1
      = ((encodeUtf8 c ++ encodeAll cs).length + 1) + 1 by simp]
  rw [show pathF cl (((encodeUtf8 c ++ encodeAll cs).length + 1) + 1)
      = Path cl (pathF cl ((encodeUtf8 c ++ encodeAll cs).length + 1)) from rfl]
  rw [Path_slash_ident cl _ c cs Ctx.init hvc hvs hstart hcont]
  simp [Ctx.finish, Ctx.init, Ctx.setAbs, Ctx.addPrim]

open Sdf_PathParser in
/-- C6 witness: the ASCII identifier A b underscore parsed after a slash. -/
theorem C6_valid_identifier_single_prim_witness :
    Sdf_ParsePath asciiCl (47 :: (encodeUtf8 65 ++ encodeAll [98, 95]))
      = some ⟨true, 0, [⟨encodeUtf8 65 ++ encodeAll [98, 95], []⟩], none⟩ :=
  C6_valid_identifier_single_prim asciiCl 65 [98, 95]
    (by simp [validScalar]) (by simp [validScalar])
    (Or.inr (by decide)) (by decide)

namespace Sdf_PathParser

theorem Utf8IdentifierStart_invalid (cl : XidClassifier) (b0 : Nat) (bs : List Nat)
    (ctx : Ctx) (hb : 0x80 ≤ b0) (hd : decodeUtf8 (b0 :: bs) = none) :
    Utf8IdentifierStart cl (b0 :: bs) ctx = PRes.nomatch := by
  simp only [Utf8IdentifierStart, pSor,
    pOne95_nomatch b0 bs ctx (by omega : b0 ≠ 95),
    XidStart_nomatch cl (b0 :: bs) ctx hd]

theorem PrimElts_invalid (cl : XidClassifier) (b0 : Nat) (bs : List Nat)
    (ctx : Ctx) (hb : 0x80 ≤ b0) (hd : decodeUtf8 (b0 :: bs) = none) :
    PrimElts cl (b0 :: bs) ctx = PRes.nomatch := by
  unfold PrimElts LookaheadList PrimName Utf8Identifier
  simp only [pSeq, pAct, Utf8IdentifierStart_invalid cl b0 bs ctx hb hd]

theorem Path_slash_invalid (cl : XidClassifier) (tp : P) (b0 : Nat)
    (bs : List Nat) (ctx : Ctx)
    (hb : 0x80 ≤ b0) (hd : decodeUtf8 (b0 :: bs) = none) :
    Path cl tp (47 :: b0 :: bs) ctx = PRes.ok (b0 :: bs) ctx.setAbs := by
  unfold Path PrimFirstPathElts
  simp only [pSor, pSeq, AbsoluteRoot_cons, pOpt,
    PrimElts_invalid cl b0 bs ctx.setAbs hb hd]

end Sdf_PathParser

open Sdf_PathParser in
/-- C10: for every byte sequence that the UTF-8 peek primitive cannot decode,
the XidStart and XidContinue rules fail without consuming input; and a path
whose prim-name position starts with such a malformed sequence (a byte at or
above 0x80 that does not begin a valid UTF-8 scalar) is rejected by
Sdf_ParsePath as an ordinary parse failure. -/
theorem C10_invalid_utf8_rejected (cl : XidClassifier) :
    (∀ (b : List Nat) (ctx : Ctx), decodeUtf8 b = none →
      XidStart cl b ctx = PRes.nomatch ∧ XidContinue cl b ctx = PRes.nomatch) ∧
    (∀ (b0 : Nat) (bs : List Nat), 0x80 ≤ b0 → decodeUtf8 (b0 :: bs) = none →
      Sdf_ParsePath cl (47 :: b0 :: bs) = none) := by
  constructor
  · intro b ctx hd
    exact ⟨XidStart_nomatch cl b ctx hd, XidContinue_nomatch cl b ctx hd⟩
  · intro b0 bs hb hd
    unfold Sdf_ParsePath
    rw [show (47 :: b0 :: bs).length + 1 = ((b0 :: bs).length + 1) + 1 by simp]
    rw [show pathF cl (((b0 :: bs).length + 1) + 1)
        = Path cl (pathF cl ((b0 :: bs).length + 1)) from rfl]
    rw [Path_slash_invalid cl _ b0 bs Ctx.init hb hd]
    simp

open Sdf_PathParser in
/-- C10 witness: the lone byte 0xFF is not decodable, the identifier rules
reject it, and the two-byte input slash 0xFF fails to parse. -/
theorem C10_invalid_utf8_rejected_witness :
    XidStart asciiCl [255] Ctx.init = PRes.nomatch ∧
    Sdf_ParsePath asciiCl [47, 255] = none :=
  ⟨((C10_invalid_utf8_rejected asciiCl).1 [255] Ctx.init (by decide)).1,
   (C10_invalid_utf8_rejected asciiCl).2 255 [] (by decide) (by decide)⟩
